import Mathlib

/-!
Verification of the ServiceNow → Infoblox location synchronizer.

The development shallowly embeds the two Python scripts of the repository:
`infoblox-importer.py` (namespace `Importer`) and
`flush_all_location_values.py` (namespace `Flush`).  Python strings are
Lean strings (sequences of code points via `String.data`); Python sets are
`Finset String`; an HTTP interaction is summarised by its observable
outcome (`HttpResult`); `sys.exit(1)` is `Except.error 1`.
-/

namespace InfobloxSync

/-! ### Python string primitives

Python slicing `value[:n]` keeps the first `n` code points; `str.strip()`
removes leading and trailing whitespace; `str.split("/")` cuts at every
slash and never returns an empty list (`"".split("/") == [""]`).
-/

/-- Python `value[:n]`: the first `n` code points of the string. -/
def pySlice (v : String) (n : Nat) : String :=
  ⟨v.data.take n⟩

/-- Python `str.strip()`: drop leading and trailing whitespace. -/
def pyStrip (s : String) : String :=
  ⟨((s.data.dropWhile Char.isWhitespace).reverse.dropWhile Char.isWhitespace).reverse⟩

/-- Python `str.split("/")` on the character list: cut at every slash.
The result is always nonempty; splitting the empty string gives `[[]]`. -/
def pySplitSlash : List Char → List (List Char)
  | [] => [[]]
  | c :: rest =>
    match pySplitSlash rest with
    | [] => [[]]
    | g :: gs => if c = '/' then [] :: g :: gs else (c :: g) :: gs

/-! ### HTTP model

`HttpResult α` is the observable outcome of one `requests` call:
either the library raised (`exn`), or a response arrived with a status
code and a body that either parsed as JSON of shape `α` or did not
(`body = none` models a `.json()` failure).
-/

inductive HttpResult (α : Type) where
  | exn : HttpResult α
  | resp (status : Nat) (body : Option α) : HttpResult α

/-- One row of the ServiceNow `result` array: the `name` field may be absent. -/
structure SnowRow where
  name : Option String
deriving DecidableEq

/-- The ServiceNow response body: `data.get("result", [])` defaults to `[]`. -/
structure SnowBody where
  result : Option (List SnowRow)
deriving DecidableEq

/-- One entry of an EA `list_values` array; the `value` key may be absent. -/
structure ListValueEntry where
  value : Option String
deriving DecidableEq

/-- An Infoblox extensibleattributedef object: `_ref` and `list_values`
are both read with `.get`, hence optional. -/
structure EADef where
  ref : Option String
  list_values : Option (List ListValueEntry)
deriving DecidableEq

/-- The remote calls a run can issue, in order of emission. -/
inductive Call where
  | snowGet : Call
  | ibxGetEA : Call
  | ibxPut (payload : List String) : Call
deriving DecidableEq

/-- The `proxies` dictionary handed to `requests`: the same URL is used
for the `http` and `https` keys. -/
structure ProxyConfig where
  http : String
  https : String
deriving DecidableEq

/-- The validated configuration object (config.yaml after validation). -/
structure Config where
  infoblox_api_endpoint : String
  infoblox_api_username : String
  infoblox_api_password : String
  servicenow_api_endpoint : String
  servicenow_api_username : String
  servicenow_api_token : String
  service_now_api_limit : Nat
  servicenow_proxy : Option String

/-- `if servicenow_proxy:` — build the proxies dict only when the key is
present and truthy (a nonempty string). -/
def mkProxies (servicenow_proxy : Option String) : Option ProxyConfig :=
  match servicenow_proxy with
  | some p => if p ≠ "" then some { http := p, https := p } else none
  | none => none

/-- A GET request as issued by `requests.get`, keeping the fields the
specification talks about. -/
structure GetRequest where
  url : String
  proxies : Option ProxyConfig

/-- A PUT request as issued by `requests.put`: target URL, the
`list_values` payload (in submission order), and the proxies. -/
structure PutRequest where
  url : String
  list_values : List String
  proxies : Option ProxyConfig

/-- Status handling shared by both PUT sites:
`if response.status_code not in [200, 201]: sys.exit(1)`. -/
def putOutcome (r : HttpResult Unit) : Except Nat Unit :=
  match r with
  | .exn => .error 1
  | .resp status _ => if status = 200 ∨ status = 201 then .ok () else .error 1

namespace Importer

/-- `ENUM_MAX_LENGTH = 64`. -/
def ENUM_MAX_LENGTH : Nat := 64

/-- `sanitize_value` of `infoblox-importer.py`: truncate to
`ENUM_MAX_LENGTH` code points when longer, otherwise return unchanged. -/
def sanitize_value (value : String) : String :=
  if value.length > ENUM_MAX_LENGTH then pySlice value ENUM_MAX_LENGTH else value

/-- One iteration of the loop
`sanitized_mapping.setdefault(sanitized, []).append(value)`:
append `v` to the entry of key `k`, creating the entry at the end when
absent (Python dicts preserve insertion order). -/
def addOriginal : List (String × List String) → String → String → List (String × List String)
  | [], k, v => [(k, [v])]
  | (k₀, vs) :: rest, k, v =>
    if k₀ = k then (k₀, vs ++ [v]) :: rest else (k₀, vs) :: addOriginal rest k v

/-- Association-list lookup, the semantics of reading one key of the
`sanitized_mapping` dictionary; used to state the invariants of the
mapping-building loop. -/
def getEntry : List (String × List String) → String → Option (List String)
  | [], _ => none
  | (k₀, vs) :: rest, k => if k₀ = k then some vs else getEntry rest k

/-- The mapping-building loop of `update_infoblox_ea_values`, started from
an arbitrary dictionary state `m`. -/
def mappingFrom (m : List (String × List String)) (l : List String) :
    List (String × List String) :=
  l.foldl (fun acc value => addOriginal acc (sanitize_value value) value) m

/-- `sanitized_mapping`: mapping from sanitized value to the list of
original values that produced it, keys in insertion order. -/
def sanitized_mapping (new_values : List String) : List (String × List String) :=
  mappingFrom [] new_values

/-- The duplicate warnings logged by `update_infoblox_ea_values`: one per
sanitized value with more than one original value. -/
def duplicate_warnings (new_values : List String) : List (String × List String) :=
  (sanitized_mapping new_values).filter (fun p => decide (1 < p.2.length))

/-- `sanitized_values = sorted(sanitized_mapping.keys())`: the dictionary
keys sorted by the string order (lexicographic on code points, as in
Python). -/
def sanitized_values (new_values : List String) : List String :=
  ((sanitized_mapping new_values).map Prod.fst).mergeSort

/-- The PUT request built by `update_infoblox_ea_values` of the importer:
note that no `proxies` argument is passed there. -/
def eaPutRequest (cfg : Config) (ea_ref : String) (new_values : List String) : PutRequest :=
  { url := cfg.infoblox_api_endpoint ++ "/" ++ ea_ref,
    list_values := sanitized_values new_values,
    proxies := none }

/-- `SNOW_INSTANCE_URL`: prefix `https://` unless the configured endpoint
already starts with `http`. -/
def snowInstanceUrl (endpoint : String) : String :=
  if endpoint.startsWith "http" then endpoint else "https://" ++ endpoint

/-- The GET request issued by `get_snow_locations`, including the proxies
dict built from `SERVICENOW_PROXY`. -/
def snowGetRequest (cfg : Config) : GetRequest :=
  { url := snowInstanceUrl cfg.servicenow_api_endpoint ++
      "/api/now/table/cmn_location?sysparm_query=cmn_location_typeINcountry,city,campus&sysparm_limit=" ++
      toString cfg.service_now_api_limit ++ "&sysparm_fields=name",
    proxies := mkProxies cfg.servicenow_proxy }

/-- The GET request issued by `get_infoblox_ea_definition` of the
importer: no `proxies` argument is passed. -/
def eaGetRequest (cfg : Config) (ea_name : String) : GetRequest :=
  { url := cfg.infoblox_api_endpoint ++ "/extensibleattributedef?name=" ++ ea_name ++
      "&_return_fields=list_values",
    proxies := none }

/-- `item["name"]` handling of one result row: the row is kept when the
`name` key is present and truthy (a nonempty string), and the kept name
is stripped. -/
def rowName (item : SnowRow) : Option String :=
  match item.name with
  | some n => if n ≠ "" then some (pyStrip n) else none
  | none => none

/-- `get_snow_locations`: fatal (`sys.exit(1)`, modelled as
`Except.error 1`) on a raised exception, a non-200 status or an
unparsable body; otherwise the set of stripped names of the rows that
carry a truthy `name`. -/
def get_snow_locations (r : HttpResult SnowBody) : Except Nat (Finset String) :=
  match r with
  | .exn => .error 1
  | .resp status body =>
    if status ≠ 200 then .error 1 else
    match body with
    | none => .error 1
    | some data => .ok ((data.result.getD []).filterMap rowName).toFinset

/-- `get_infoblox_ea_definition` of the importer: fatal on exception,
non-200 status, unparsable body or an empty result array (`if not data`,
logged as EA not found); otherwise returns `data[0]` together with its
`_ref`. -/
def get_infoblox_ea_definition (r : HttpResult (List EADef)) :
    Except Nat (EADef × Option String) :=
  match r with
  | .exn => .error 1
  | .resp status body =>
    if status ≠ 200 then .error 1 else
    match body with
    | none => .error 1
    | some [] => .error 1
    | some (ea_def :: _) => .ok (ea_def, ea_def.ref)

/-- The sort key of `main`: `tuple(loc.split("/"))`, compared as Python
compares tuples of strings (lexicographically, strings by code point). -/
def snowKey (loc : String) : List (List Char) :=
  pySplitSlash loc.data

/-- `sorted(snow_locations, key=lambda loc: tuple(loc.split("/")))`.
A Python set iterates in an unspecified order; we enumerate the set in
the canonical string order and then apply the stable sort by key.  Since
`split("/")` is injective (`"/".join(x.split("/")) == x`), no two
distinct locations share a key, so the sorted output does not depend on
the enumeration order. -/
def sortedSnowValues (s : Finset String) : List String :=
  (s.sort (· ≤ ·)).mergeSort (fun a b => decide (snowKey a ≤ snowKey b))

/-- `current_values`: the set of `value` fields of the current
`list_values` entries. -/
def currentValues (ea_def : EADef) : Finset String :=
  ((ea_def.list_values.getD []).filterMap (fun entry => entry.value)).toFinset

/-- The decision test `new_values == current_values` of `main`.  In
Python this compares a `list` with a `set`: both `list.__eq__` and
`set.__eq__` return `NotImplemented` for the other type and `==` falls
back to identity, so the test is constantly `False` whatever the two
collections contain. -/
def pyListEqSet (_new_values : List String) (_current_values : Finset String) : Bool :=
  false

/-- The remote outcomes a single run of `main` can observe, in the order
the calls would be issued. -/
structure World where
  snow : HttpResult SnowBody
  eaGet₁ : HttpResult (List EADef)
  put : HttpResult Unit
  eaGet₂ : HttpResult (List EADef)

/-- `main` of `infoblox-importer.py`, returning the list of remote calls
issued (in order) and the process exit code. -/
def runMain (w : World) : List Call × Nat :=
  match get_snow_locations w.snow with
  | .error c => ([Call.snowGet], c)
  | .ok snow_locations =>
    match get_infoblox_ea_definition w.eaGet₁ with
    | .error c => ([Call.snowGet, Call.ibxGetEA], c)
    | .ok (ea_def, _ea_ref) =>
      let current_values := currentValues ea_def
      let new_values := sortedSnowValues snow_locations
      if pyListEqSet new_values current_values then
        ([Call.snowGet, Call.ibxGetEA], 0)
      else
        let payload := sanitized_values new_values
        match putOutcome w.put with
        | .error c => ([Call.snowGet, Call.ibxGetEA, Call.ibxPut payload], c)
        | .ok _ =>
          match get_infoblox_ea_definition w.eaGet₂ with
          | .error c => ([Call.snowGet, Call.ibxGetEA, Call.ibxPut payload, Call.ibxGetEA], c)
          | .ok _ => ([Call.snowGet, Call.ibxGetEA, Call.ibxPut payload, Call.ibxGetEA], 0)

end Importer

namespace Flush

/-- `sanitize_value` of `flush_all_location_values.py`; the Python
default for `max_len` is 64.  (The flush script defines it but its update
path never calls it.) -/
def sanitize_value (value : String) (max_len : Nat) : String :=
  if value.length > max_len then pySlice value max_len else value

/-- `get_infoblox_ea_definition` of the flush script: identical error
handling to the importer (fatal on exception, non-200, bad JSON, empty
array) and returns `data[0]` with its `_ref`. -/
def get_infoblox_ea_definition (r : HttpResult (List EADef)) :
    Except Nat (EADef × Option String) :=
  match r with
  | .exn => .error 1
  | .resp status body =>
    if status ≠ 200 then .error 1 else
    match body with
    | none => .error 1
    | some [] => .error 1
    | some (ea_def :: _) => .ok (ea_def, ea_def.ref)

/-- The GET request of the flush script: the module-level proxies dict is
passed to every call. -/
def eaGetRequest (cfg : Config) (_ea_name : String) : GetRequest :=
  { url := cfg.infoblox_api_endpoint ++ "/extensibleattributedef",
    proxies := mkProxies cfg.servicenow_proxy }

/-- `update_infoblox_ea_values` of the flush script: the payload is the
literal `{"list_values": [{"value": "CLEARED"}]}`, built without looking
at anything but the reference handle. -/
def update_infoblox_ea_values (cfg : Config) (ea_ref : String) : PutRequest :=
  { url := cfg.infoblox_api_endpoint ++ "/" ++ ea_ref,
    list_values := ["CLEARED"],
    proxies := mkProxies cfg.servicenow_proxy }

/-- The remote outcomes one run of the flush script can observe. -/
structure FlushWorld where
  eaGet : HttpResult (List EADef)
  put : HttpResult Unit

/-- The `__main__` block of the flush script: read the EA definition,
then flush it, returning the calls issued and the exit code. -/
def runFlush (w : FlushWorld) : List Call × Nat :=
  match get_infoblox_ea_definition w.eaGet with
  | .error c => ([Call.ibxGetEA], c)
  | .ok _ =>
    match putOutcome w.put with
    | .error c => ([Call.ibxGetEA, Call.ibxPut ["CLEARED"]], c)
    | .ok _ => ([Call.ibxGetEA, Call.ibxPut ["CLEARED"]], 0)

end Flush

/-- A concrete configuration with a proxy URL set. -/
def proxyCfg : Config :=
  { infoblox_api_endpoint := "https://ibx.example/wapi/v2.10",
    infoblox_api_username := "u", infoblox_api_password := "pw",
    servicenow_api_endpoint := "snow.example", servicenow_api_username := "su",
    servicenow_api_token := "tok", service_now_api_limit := 1000,
    servicenow_proxy := some "http://proxy.example:3128" }

/-- A concrete configuration with no proxy URL. -/
def directCfg : Config :=
  { infoblox_api_endpoint := "https://ibx.example/wapi/v2.10",
    infoblox_api_username := "u", infoblox_api_password := "pw",
    servicenow_api_endpoint := "snow.example", servicenow_api_username := "su",
    servicenow_api_token := "tok", service_now_api_limit := 1000,
    servicenow_proxy := none }

deriving instance DecidableEq for Except

/-- An EA definition whose allowed values are exactly {"US"}. -/
def usEA : EADef :=
  ⟨some "extensibleattributedef/x:Location", some [⟨some "US"⟩]⟩

/-- A run in which ServiceNow yields exactly the set {"US"} and the
Infoblox EA already allows exactly "US": desired and current value sets
coincide. -/
def equalWorld : Importer.World :=
  ⟨HttpResult.resp 200 (some ⟨some [⟨some "US"⟩]⟩),
   HttpResult.resp 200 (some [usEA]),
   HttpResult.resp 200 none,
   HttpResult.resp 200 (some [usEA])⟩

/-- A 65-character name; sanitization truncates it to 64 characters. -/
def a65 : String := ⟨List.replicate 65 'a'⟩

/-- A 66-character name that collides with `a65` after truncation. -/
def a66 : String := ⟨List.replicate 66 'a'⟩

/-! ### Theorems -/

namespace Importer

/-- The keys of the dictionary after one `setdefault`/`append` step: an
existing key leaves the key list unchanged; a new key is appended. -/
theorem keys_addOriginal (m : List (String × List String)) (k v : String) :
    (addOriginal m k v).map Prod.fst =
      if k ∈ m.map Prod.fst then m.map Prod.fst else m.map Prod.fst ++ [k] := by
  induction m with
  | nil => simp [addOriginal]
  | cons p rest ih =>
    obtain ⟨k₀, vs⟩ := p
    by_cases h : k₀ = k
    · subst h
      simp [addOriginal]
    · by_cases hk : k ∈ rest.map Prod.fst <;>
        simp [addOriginal, h, ih, hk, Ne.symm h]

/-- One `setdefault`/`append` step keeps the key list duplicate-free. -/
theorem nodup_keys_addOriginal {m : List (String × List String)} {k v : String}
    (h : (m.map Prod.fst).Nodup) : ((addOriginal m k v).map Prod.fst).Nodup := by
  rw [keys_addOriginal]
  split
  · exact h
  · next hk => simp [List.nodup_append, h, hk]

/-- Entry contents after one `setdefault`/`append` step. -/
theorem getEntry_addOriginal (m : List (String × List String)) (k v q : String) :
    getEntry (addOriginal m k v) q =
      if q = k then some (((getEntry m k).getD []) ++ [v]) else getEntry m q := by
  induction m with
  | nil =>
    by_cases h : q = k
    · subst h
      simp [addOriginal, getEntry]
    · simp [addOriginal, getEntry, h, Ne.symm h]
  | cons p rest ih =>
    obtain ⟨k₀, vs⟩ := p
    by_cases h0 : k₀ = k
    · subst h0
      by_cases h : q = k₀
      · subst h
        simp [addOriginal, getEntry]
      · simp [addOriginal, getEntry, h, Ne.symm h]
    · by_cases h : q = k₀
      · subst h
        simp [addOriginal, getEntry, h0]
      · simp [addOriginal, getEntry, h0, h, Ne.symm h, ih]

/-- A key is absent from the dictionary iff its entry is `none`. -/
theorem getEntry_eq_none_iff (m : List (String × List String)) (k : String) :
    getEntry m k = none ↔ k ∉ m.map Prod.fst := by
  induction m with
  | nil => simp [getEntry]
  | cons p rest ih =>
    obtain ⟨k₀, vs₀⟩ := p
    by_cases hk : k₀ = k
    · subst hk
      simp [getEntry]
    · simp [getEntry, hk, ih, Ne.symm hk]

/-- With duplicate-free keys, dictionary membership is exactly `getEntry`. -/
theorem mem_iff_getEntry {m : List (String × List String)}
    (h : (m.map Prod.fst).Nodup) {k : String} {vs : List String} :
    (k, vs) ∈ m ↔ getEntry m k = some vs := by
  induction m with
  | nil => simp [getEntry]
  | cons p rest ih =>
    obtain ⟨k₀, vs₀⟩ := p
    simp only [List.map_cons, List.nodup_cons] at h
    by_cases hk : k₀ = k
    · subst hk
      simp only [getEntry, if_pos rfl, List.mem_cons]
      constructor
      · rintro (⟨-, rfl⟩ | hmem)
        · rfl
        · exact absurd (List.mem_map.mpr ⟨_, hmem, rfl⟩) h.1
      · intro hsome
        exact Or.inl (Prod.ext rfl (Option.some.inj hsome).symm)
    · simp only [getEntry, if_neg hk, List.mem_cons]
      rw [← ih h.2]
      constructor
      · rintro (⟨rfl, -⟩ | hmem)
        · exact absurd rfl hk
        · exact hmem
      · exact Or.inr

/-- Unfolding one step of the mapping-building loop. -/
theorem mappingFrom_cons (m : List (String × List String)) (v : String) (l : List String) :
    mappingFrom m (v :: l) = mappingFrom (addOriginal m (sanitize_value v) v) l := rfl

/-- The mapping-building loop keeps the key list duplicate-free. -/
theorem keys_mappingFrom_nodup (l : List String) :
    ∀ m, (m.map Prod.fst).Nodup → ((mappingFrom m l).map Prod.fst).Nodup := by
  induction l with
  | nil => intro m h; exact h
  | cons v l ih => intro m h; exact ih _ (nodup_keys_addOriginal h)

/-- The keys after the loop are the old keys plus the sanitized inputs. -/
theorem mem_keys_mappingFrom (l : List String) :
    ∀ m k, k ∈ (mappingFrom m l).map Prod.fst ↔
      k ∈ m.map Prod.fst ∨ k ∈ l.map sanitize_value := by
  induction l with
  | nil => intro m k; simp [mappingFrom]
  | cons v l ih =>
    intro m k
    rw [mappingFrom_cons, ih, keys_addOriginal]
    by_cases hv : sanitize_value v ∈ m.map Prod.fst
    · rw [if_pos hv]
      simp only [List.map_cons, List.mem_cons]
      constructor
      · rintro (h | h)
        · exact Or.inl h
        · exact Or.inr (Or.inr h)
      · rintro (h | rfl | h)
        · exact Or.inl h
        · exact Or.inl hv
        · exact Or.inr h
    · rw [if_neg hv]
      simp only [List.mem_append, List.map_cons, List.mem_cons, List.mem_singleton]
      tauto

/-- The entry of key `k` after the loop: the old contents extended by the
inputs whose sanitized value is `k`, in input order. -/
theorem getEntry_mappingFrom (l : List String) :
    ∀ m k, getEntry (mappingFrom m l) k =
      match getEntry m k with
      | some vs => some (vs ++ l.filter (fun v => decide (sanitize_value v = k)))
      | none =>
        if l.filter (fun v => decide (sanitize_value v = k)) = [] then none
        else some (l.filter (fun v => decide (sanitize_value v = k))) := by
  induction l with
  | nil =>
    intro m k
    cases h : getEntry m k <;> simp [mappingFrom, h]
  | cons v l ih =>
    intro m k
    rw [mappingFrom_cons, ih, getEntry_addOriginal]
    by_cases hv : sanitize_value v = k
    · rw [if_pos hv.symm, hv]
      cases hm : getEntry m k with
      | some vs => simp [hm, List.filter_cons, hv, List.append_assoc]
      | none => simp [hm, List.filter_cons, hv]
    · rw [if_neg (fun hh => hv hh.symm)]
      cases hm : getEntry m k with
      | some vs => simp [hm, List.filter_cons, hv]
      | none => simp [hm, List.filter_cons, hv]

/-- The `sanitized_mapping` key list is duplicate-free. -/
theorem keys_sanitized_mapping_nodup (l : List String) :
    ((sanitized_mapping l).map Prod.fst).Nodup :=
  keys_mappingFrom_nodup l [] (by simp)

/-- The `sanitized_mapping` keys are exactly the sanitized input values. -/
theorem mem_keys_sanitized_mapping (l : List String) (k : String) :
    k ∈ (sanitized_mapping l).map Prod.fst ↔ k ∈ l.map sanitize_value := by
  rw [show sanitized_mapping l = mappingFrom [] l from rfl, mem_keys_mappingFrom]
  simp

/-- The entry of key `k` of `sanitized_mapping`: all inputs whose
sanitized value is `k`, in input order. -/
theorem getEntry_sanitized_mapping (l : List String) (k : String) :
    getEntry (sanitized_mapping l) k =
      if l.filter (fun v => decide (sanitize_value v = k)) = [] then none
      else some (l.filter (fun v => decide (sanitize_value v = k))) := by
  rw [show sanitized_mapping l = mappingFrom [] l from rfl, getEntry_mappingFrom]
  rfl

end Importer

/-- Two distinct members force a length of at least two. -/
theorem one_lt_length_of_mem_mem {α : Type} {a b : α} {l : List α}
    (ha : a ∈ l) (hb : b ∈ l) (hne : a ≠ b) : 1 < l.length := by
  match l with
  | [] => exact absurd ha (List.not_mem_nil a)
  | [x] =>
    rw [List.mem_singleton] at ha hb
    exact absurd (ha.trans hb.symm) hne
  | x :: y :: rest =>
    simp only [List.length_cons]
    omega

/-- C2: `sanitize_value` returns its input unchanged when the length is
at most 64 characters, and returns exactly the first 64 characters (a
string of length exactly 64) when the input is longer; the flush-script
variant at its Python default `max_len = 64` agrees with the importer
version on every input. -/
theorem c2_sanitize_value_truncation (v : String) :
    (v.length ≤ 64 → Importer.sanitize_value v = v) ∧
    (64 < v.length →
      Importer.sanitize_value v = pySlice v 64 ∧ (Importer.sanitize_value v).length = 64) ∧
    Flush.sanitize_value v 64 = Importer.sanitize_value v := by
  have hlen : v.length = v.data.length := rfl
  refine ⟨fun h => ?_, fun h => ⟨?_, ?_⟩, rfl⟩
  · simp only [Importer.sanitize_value, Importer.ENUM_MAX_LENGTH]
    rw [if_neg (by omega)]
  · simp only [Importer.sanitize_value, Importer.ENUM_MAX_LENGTH]
    rw [if_pos (by omega)]
  · simp only [Importer.sanitize_value, Importer.ENUM_MAX_LENGTH]
    rw [if_pos (by omega)]
    show (v.data.take 64).length = 64
    rw [List.length_take]
    omega

/-- Witness for C2: a 70-character name is cut to its first 64
characters, and a short name is unchanged. -/
theorem c2_sanitize_value_truncation_witness :
    Importer.sanitize_value ⟨List.replicate 70 'a'⟩ = ⟨List.replicate 64 'a'⟩ ∧
    Importer.sanitize_value "US/NYC/HQ" = "US/NYC/HQ" := by
  constructor
  · have h := (c2_sanitize_value_truncation ⟨List.replicate 70 'a'⟩).2.1 (by decide)
    rw [h.1]
    decide
  · exact (c2_sanitize_value_truncation "US/NYC/HQ").1 (by decide)

/-- C5: the flush update always submits the single-element payload
["CLEARED"], whatever the prior contents of the attribute definition,
and every successful read is followed by a PUT carrying exactly that
payload. -/
theorem c5_flush_payload_cleared (cfg : Config) (ea_ref : String)
    (d : EADef) (ds : List EADef) (put : HttpResult Unit) :
    (Flush.update_infoblox_ea_values cfg ea_ref).list_values = ["CLEARED"] ∧
    (Flush.runFlush { eaGet := HttpResult.resp 200 (some (d :: ds)), put := put }).1 =
      [Call.ibxGetEA, Call.ibxPut ["CLEARED"]] ∧
    (Flush.update_infoblox_ea_values cfg ea_ref).list_values.length = 1 := by
  refine ⟨rfl, ?_, rfl⟩
  show (match putOutcome put with
    | .error c => ([Call.ibxGetEA, Call.ibxPut ["CLEARED"]], c)
    | .ok _ => ([Call.ibxGetEA, Call.ibxPut ["CLEARED"]], 0)).1 = _
  cases putOutcome put <;> rfl

/-- C6: a failed ServiceNow read — non-200 status, transport exception,
or unparsable body — makes the run exit with code 1 having issued no
Infoblox call. -/
theorem c6_snow_failure_fatal (status : Nat) (h : status ≠ 200) (body : Option SnowBody)
    (g₁ g₂ : HttpResult (List EADef)) (put : HttpResult Unit) :
    Importer.runMain ⟨HttpResult.resp status body, g₁, put, g₂⟩ = ([Call.snowGet], 1) ∧
    Importer.runMain ⟨HttpResult.exn, g₁, put, g₂⟩ = ([Call.snowGet], 1) ∧
    Importer.runMain ⟨HttpResult.resp 200 none, g₁, put, g₂⟩ = ([Call.snowGet], 1) := by
  refine ⟨?_, rfl, rfl⟩
  have hs : Importer.get_snow_locations (HttpResult.resp status body) = .error 1 := by
    simp [Importer.get_snow_locations, h]
  simp [Importer.runMain, hs]

/-- Witness for C6: an HTTP 500 from ServiceNow exits 1 after the single
ServiceNow call. -/
theorem c6_snow_failure_fatal_witness :
    Importer.runMain ⟨HttpResult.resp 500 none, HttpResult.exn, HttpResult.exn,
      HttpResult.exn⟩ = ([Call.snowGet], 1) :=
  (c6_snow_failure_fatal 500 (by decide) none HttpResult.exn HttpResult.exn HttpResult.exn).1

/-- C7: both attribute-definition readers fail fatally (exit 1) when the
query returns zero matching definitions, and on success return the
definition payload together with its opaque `_ref` handle. -/
theorem c7_ea_reader_not_found (d : EADef) (ds : List EADef) :
    Importer.get_infoblox_ea_definition (HttpResult.resp 200 (some [])) = .error 1 ∧
    Flush.get_infoblox_ea_definition (HttpResult.resp 200 (some [])) = .error 1 ∧
    Importer.get_infoblox_ea_definition (HttpResult.resp 200 (some (d :: ds))) =
      .ok (d, d.ref) ∧
    Flush.get_infoblox_ea_definition (HttpResult.resp 200 (some (d :: ds))) =
      .ok (d, d.ref) :=
  ⟨rfl, rfl, rfl, rfl⟩

/-- C10: when the definition read returns more than one match, both
readers silently return the first element and its handle, ignoring the
rest. -/
theorem c10_ea_reader_first_of_many (d₁ d₂ : EADef) (ds : List EADef) :
    Importer.get_infoblox_ea_definition (HttpResult.resp 200 (some (d₁ :: d₂ :: ds))) =
      .ok (d₁, d₁.ref) ∧
    Flush.get_infoblox_ea_definition (HttpResult.resp 200 (some (d₁ :: d₂ :: ds))) =
      .ok (d₁, d₁.ref) :=
  ⟨rfl, rfl⟩

/-- C8 as stated is false: with a proxy configured, the sync workflow
builds its Infoblox EA read request without any proxy, even though the
ServiceNow read of the same run does carry the proxy. -/
theorem c8_counterexample_importer_ea_no_proxy :
    (Importer.eaGetRequest proxyCfg "Location").proxies = none ∧
    (Importer.snowGetRequest proxyCfg).proxies =
      some { http := "http://proxy.example:3128", https := "http://proxy.example:3128" } :=
  ⟨rfl, by decide⟩

/-- C8 amended: the ServiceNow read and both flush-script calls carry the
configured proxy for http and https; the sync workflow Infoblox read and
update never configure a proxy; with no proxy configured every call is
direct. -/
theorem c8_amended_proxy_usage (cfg cfg₀ : Config) (p ea_name ea_ref : String)
    (new_values : List String) (hp : cfg.servicenow_proxy = some p) (hne : p ≠ "")
    (h₀ : cfg₀.servicenow_proxy = none) :
    (Importer.snowGetRequest cfg).proxies = some { http := p, https := p } ∧
    (Flush.eaGetRequest cfg ea_name).proxies = some { http := p, https := p } ∧
    (Flush.update_infoblox_ea_values cfg ea_ref).proxies = some { http := p, https := p } ∧
    (Importer.eaGetRequest cfg ea_name).proxies = none ∧
    (Importer.eaPutRequest cfg ea_ref new_values).proxies = none ∧
    (Importer.snowGetRequest cfg₀).proxies = none ∧
    (Flush.eaGetRequest cfg₀ ea_name).proxies = none ∧
    (Flush.update_infoblox_ea_values cfg₀ ea_ref).proxies = none := by
  simp [Importer.snowGetRequest, Flush.eaGetRequest, Flush.update_infoblox_ea_values,
    Importer.eaGetRequest, Importer.eaPutRequest, mkProxies, hp, hne, h₀]

/-- Witness for the amended C8 at concrete configurations. -/
theorem c8_amended_proxy_usage_witness :
    (Importer.snowGetRequest proxyCfg).proxies =
      some { http := "http://proxy.example:3128", https := "http://proxy.example:3128" } ∧
    (Flush.eaGetRequest proxyCfg "Location").proxies =
      some { http := "http://proxy.example:3128", https := "http://proxy.example:3128" } ∧
    (Flush.update_infoblox_ea_values proxyCfg "ref").proxies =
      some { http := "http://proxy.example:3128", https := "http://proxy.example:3128" } ∧
    (Importer.eaGetRequest proxyCfg "Location").proxies = none ∧
    (Importer.eaPutRequest proxyCfg "ref" []).proxies = none ∧
    (Importer.snowGetRequest directCfg).proxies = none ∧
    (Flush.eaGetRequest directCfg "Location").proxies = none ∧
    (Flush.update_infoblox_ea_values directCfg "ref").proxies = none :=
  c8_amended_proxy_usage proxyCfg directCfg "http://proxy.example:3128" "Location" "ref" []
    rfl (by decide) rfl

/-- C3: when two distinct raw values sanitize to the same string, the
submitted payload carries exactly one copy of that sanitized string, and
a duplicate warning is logged for it that records every original value
that collapsed onto it. -/
theorem c3_dedup_collision_warning (l : List String) (v₁ v₂ : String)
    (h₁ : v₁ ∈ l) (h₂ : v₂ ∈ l) (hne : v₁ ≠ v₂)
    (hcollide : Importer.sanitize_value v₁ = Importer.sanitize_value v₂) :
    (Importer.sanitized_values l).count (Importer.sanitize_value v₁) = 1 ∧
    ∃ originals : List String,
      (Importer.sanitize_value v₁, originals) ∈ Importer.duplicate_warnings l ∧
      v₁ ∈ originals ∧ v₂ ∈ originals ∧
      ∀ v ∈ l, Importer.sanitize_value v = Importer.sanitize_value v₁ → v ∈ originals := by
  set s := Importer.sanitize_value v₁ with hs
  set originals := l.filter (fun v => decide (Importer.sanitize_value v = s)) with horig
  have hv₁ : v₁ ∈ originals := List.mem_filter.mpr ⟨h₁, by simp [hs]⟩
  have hv₂ : v₂ ∈ originals := List.mem_filter.mpr ⟨h₂, by simp [hs, ← hcollide]⟩
  have hget : Importer.getEntry (Importer.sanitized_mapping l) s = some originals := by
    rw [Importer.getEntry_sanitized_mapping, horig]
    rw [if_neg (by rw [← horig]; exact List.ne_nil_of_mem hv₁)]
  have hmemPair : (s, originals) ∈ Importer.sanitized_mapping l :=
    (Importer.mem_iff_getEntry (Importer.keys_sanitized_mapping_nodup l)).mpr hget
  refine ⟨?_, originals, ?_, hv₁, hv₂, ?_⟩
  · have hkmem : s ∈ (Importer.sanitized_mapping l).map Prod.fst :=
      List.mem_map.mpr ⟨(s, originals), hmemPair, rfl⟩
    have hperm : List.Perm (Importer.sanitized_values l)
        ((Importer.sanitized_mapping l).map Prod.fst) :=
      List.mergeSort_perm _ _
    rw [hperm.count_eq]
    exact List.count_eq_one_of_mem (Importer.keys_sanitized_mapping_nodup l) hkmem
  · refine List.mem_filter.mpr ⟨hmemPair, ?_⟩
    exact decide_eq_true (one_lt_length_of_mem_mem hv₁ hv₂ hne)
  · intro v hv hsv
    exact List.mem_filter.mpr ⟨hv, by simp [hsv]⟩

/-- Witness for C3: two all-'a' names of lengths 65 and 66 collide after
truncation; the payload keeps one copy and the warning lists both. -/
theorem c3_dedup_collision_warning_witness :
    (Importer.sanitized_values [a65, a66]).count (Importer.sanitize_value a65) = 1 ∧
    ∃ originals : List String,
      (Importer.sanitize_value a65, originals) ∈ Importer.duplicate_warnings [a65, a66] ∧
      a65 ∈ originals ∧ a66 ∈ originals ∧
      ∀ v ∈ [a65, a66],
        Importer.sanitize_value v = Importer.sanitize_value a65 → v ∈ originals :=
  c3_dedup_collision_warning [a65, a66] a65 a66 (by decide) (by decide) (by decide) (by decide)

/-- C4: the payload of the update is sorted ascending — weakly by `≤` and,
the entries being distinct, strictly by `<` — where the string order is
lexicographic on the character (code-point) sequences. -/
theorem c4_payload_sorted (new_values : List String) :
    (Importer.sanitized_values new_values).Sorted (· ≤ ·) ∧
    (Importer.sanitized_values new_values).Sorted (· < ·) ∧
    ∀ s t : String, s < t ↔ List.Lex (· < ·) s.data t.data := by
  have hsorted : (Importer.sanitized_values new_values).Sorted (· ≤ ·) :=
    List.sorted_mergeSort' _
  have hnodup : (Importer.sanitized_values new_values).Nodup :=
    (List.mergeSort_perm _ _).nodup_iff.mpr (Importer.keys_sanitized_mapping_nodup new_values)
  refine ⟨hsorted, hsorted.lt_of_le hnodup, fun s t => ?_⟩
  rw [String.lt_iff_toList_lt]
  exact Iff.rfl

/-- C9: the submitted payload depends only on the set of raw input
values — reordering or duplicating inputs leaves it unchanged. -/
theorem c9_payload_depends_only_on_set (l₁ l₂ : List String)
    (h : l₁.toFinset = l₂.toFinset) :
    Importer.sanitized_values l₁ = Importer.sanitized_values l₂ := by
  have hmem : ∀ a : String, a ∈ l₁ ↔ a ∈ l₂ := by
    intro a
    rw [← List.mem_toFinset, h, List.mem_toFinset]
  have hfin : ((Importer.sanitized_mapping l₁).map Prod.fst).toFinset =
      ((Importer.sanitized_mapping l₂).map Prod.fst).toFinset := by
    ext k
    rw [List.mem_toFinset, List.mem_toFinset, Importer.mem_keys_sanitized_mapping,
      Importer.mem_keys_sanitized_mapping]
    simp only [List.mem_map]
    constructor
    · rintro ⟨a, ha, rfl⟩
      exact ⟨a, (hmem a).mp ha, rfl⟩
    · rintro ⟨a, ha, rfl⟩
      exact ⟨a, (hmem a).mpr ha, rfl⟩
  have hperm : List.Perm ((Importer.sanitized_mapping l₁).map Prod.fst)
      ((Importer.sanitized_mapping l₂).map Prod.fst) :=
    List.perm_of_nodup_nodup_toFinset_eq (Importer.keys_sanitized_mapping_nodup l₁)
      (Importer.keys_sanitized_mapping_nodup l₂) hfin
  exact List.eq_of_perm_of_sorted
    ((List.mergeSort_perm _ _).trans (hperm.trans (List.mergeSort_perm _ _).symm))
    (List.sorted_mergeSort' _) (List.sorted_mergeSort' _)

/-- Witness for C9: a reordered and duplicated input yields the same
payload. -/
theorem c9_payload_depends_only_on_set_witness :
    Importer.sanitized_values ["B", "A", "A"] = Importer.sanitized_values ["A", "B"] :=
  c9_payload_depends_only_on_set ["B", "A", "A"] ["A", "B"] (by decide)

/-- C1 fails on the code: the decision test of `main` compares a Python
list with a Python set, which is constantly false, so the no-change path
is unreachable.  In the concrete run `equalWorld`, the desired value set
{"US"} equals the current allowed-value set {"US"}, yet the run issues a
PUT (and a verification read) instead of taking the no-change path. -/
theorem c1_no_change_path_unreachable :
    (∀ (nv : List String) (cv : Finset String), Importer.pyListEqSet nv cv = false) ∧
    Importer.get_snow_locations equalWorld.snow = .ok {"US"} ∧
    (Importer.get_infoblox_ea_definition equalWorld.eaGet₁).map
      (fun r => Importer.currentValues r.1) = .ok {"US"} ∧
    Importer.runMain equalWorld =
      ([Call.snowGet, Call.ibxGetEA, Call.ibxPut ["US"], Call.ibxGetEA], 0) := by
  have hval : Importer.sanitize_value "US" = "US" := by decide
  have hsorted : Importer.sortedSnowValues {"US"} = ["US"] := by
    simp only [Importer.sortedSnowValues, Finset.sort_singleton, List.mergeSort_singleton]
  have hsan : Importer.sanitized_values ["US"] = ["US"] := by
    simp only [Importer.sanitized_values, Importer.sanitized_mapping, Importer.mappingFrom,
      List.foldl, Importer.addOriginal, List.map, List.mergeSort_singleton, hval]
  have hsnow : Importer.get_snow_locations equalWorld.snow = .ok {"US"} := by decide
  have hea : Importer.get_infoblox_ea_definition equalWorld.eaGet₁ =
      .ok (usEA, usEA.ref) := by decide
  refine ⟨fun nv cv => rfl, hsnow, ?_, ?_⟩
  · rw [hea]
    decide
  · have heq : equalWorld.eaGet₂ = equalWorld.eaGet₁ := rfl
    simp only [Importer.runMain, hsnow, hea, heq, Importer.pyListEqSet, hsorted, hsan,
      putOutcome, Bool.false_eq_true, if_false]
    rfl

end InfobloxSync
